import Mathlib

/-!
Shallow embedding of `src/index.js` (class `RotatingCache`): an in-memory
key/value cache with bounded capacity, per-entry TTL and rotation policies.

Modelling choices:
* JS numbers are modelled as `Int` (every quantity involved — timestamps,
  sizes, TTLs, counters — is an integer in all claims considered).
* The backing object `this.data` is modelled as an insertion-ordered
  association list `List (String × Entry)`; JS object property order for the
  string keys used here is insertion order, and keys are unique.
  `delete this.data[key]` followed by `this.data[key] = ...` re-inserts at
  the end of the order, which the model reproduces with erase + append.
* A thrown `Error` is modelled as a `Option CacheError` component of the
  result; when `set` throws, the store keeps the mutations made before the
  throw (JS exceptions do not roll state back).
* `Date.now()` is passed in explicitly as a `now : Int` parameter.
* `Array.prototype.sort` with a consistent comparator is a stable sort
  (ES2019); the code only ever uses element `[0]` of the sorted key array,
  which for a stable sort is the first element of the original array that
  attains the extremum of the comparator key.  `selectMaxBy` / `selectMinBy`
  compute exactly that element.
-/

/-- Rotation policies accepted by the constructor (src lines 18, 24-26).
The constructor throws on anything else, so an enumeration captures every
constructible store. -/
inductive RotateType where
  | oldest
  | inactive
  | expiry
  | none
deriving DecidableEq

/-- `ROTATE_TYPES` (src line 18): the evicting policies; `'none'` is accepted
by the constructor but deliberately absent from this list. -/
def ROTATE_TYPES : List RotateType :=
  [RotateType.oldest, RotateType.inactive, RotateType.expiry]

/-- Runtime shape of a stored value, as dispatched on by `_getValueSize`
(src lines 184-208): null/undefined, array (with its length), thenable,
string, number, boolean, plain object (with its number of own keys), and
anything else (function, symbol, ...). -/
inductive Val where
  | vnull
  | varr (length : Nat)
  | vpromise
  | vstr (text : String)
  | vnum (n : Int)
  | vbool (b : Bool)
  | vobj (ownKeys : Nat)
  | vother
deriving DecidableEq

/-- Constructor options with the `DEFAULT_OPTIONS` values (src lines 3-16). -/
structure Options where
  maxKeys : Int := 2500
  stdTTL : Int := -1
  checkperiod : Int := 600
  useClones : Bool := true
  deleteOnExpire : Bool := true
  rotateType : RotateType := RotateType.oldest
  objectValueSize : Int := 80
  promiseValueSize : Int := 80
  arrayValueSize : Int := 40
  ttlScale : Int := 1000
deriving DecidableEq

/-- One stored entry (src lines 70-76). -/
structure Entry where
  value : Val
  size : Int
  ttl : Int
  added : Int
  lastAccess : Int
deriving DecidableEq

/-- The `this.stats` counters (src lines 27-33). -/
structure Stats where
  keys : Int
  hits : Int
  misses : Int
  keySize : Int
  valueSize : Int
deriving DecidableEq

/-- Full store state.  `checkScheduled` models whether a check timeout is
currently pending: the constructor arms one one-shot `setTimeout`
(src line 34) and `close` cancels it (src lines 166-168). -/
structure Store where
  data : List (String × Entry)
  options : Options
  stats : Stats
  checkScheduled : Bool
deriving DecidableEq

/-- A freshly constructed store (src lines 21-35): empty data, zeroed stats,
and one pending check timeout. -/
def Store.fresh (opts : Options) : Store :=
  { data := []
    options := opts
    stats := { keys := 0, hits := 0, misses := 0, keySize := 0, valueSize := 0 }
    checkScheduled := true }

/-- Thrown errors, per the spec taxonomy.  `typeError` stands for the
`TypeError` raised by `undefined.toString()` when eviction selects a victim
from an empty data object (`this.del(undefined)` in src line 61). -/
inductive CacheError where
  | capacityExceeded
  | keyNotFound (key : String)
  | typeError
deriving DecidableEq

/-- Property access `this.data[key]`: the first (and, for reachable states,
only) binding of `key` in the association list. -/
def findEntry (key : String) : List (String × Entry) → Option Entry
  | [] => Option.none
  | p :: rest => if p.1 = key then Option.some p.2 else findEntry key rest

/-- `_getValueSize` (src lines 184-208). -/
def getValueSize (opts : Options) (v : Val) : Int :=
  match v with
  | Val.vnull => 0
  | Val.varr n => opts.arrayValueSize * (n : Int)
  | Val.vpromise => opts.promiseValueSize
  | Val.vstr text => (text.length : Int)
  | Val.vnum _ => 8
  | Val.vbool _ => 8
  | Val.vobj n => ((n : Int)) * opts.objectValueSize
  | Val.vother => 0

/-- `del(key)` (src lines 102-112): returns 0 and changes nothing when the
key is absent; otherwise decrements `keySize`, `valueSize` and `keys`,
removes the binding and returns 1.  (Keys are unique in every reachable
state, so filtering all bindings of `key` equals deleting the one.) -/
def Store.del (s : Store) (key : String) : Store × Int :=
  match findEntry key s.data with
  | Option.none => (s, 0)
  | Option.some e =>
    ({ s with
        stats := { s.stats with
          keySize := s.stats.keySize - (key.length : Int)
          valueSize := s.stats.valueSize - e.size
          keys := s.stats.keys - 1 }
        data := s.data.filter (fun p => p.1 ≠ key) },
     1)

/-- First element of the key array after a stable sort that puts larger
`f`-values first: the comparator in src lines 48 and 51 is
`(a, b) => f(b) - f(a)` (sort descending by `f`), and the code takes
element `[0]`, i.e. the earliest-listed entry attaining the maximum of `f`. -/
def selectMaxBy (f : Entry → Int) : List (String × Entry) → Option String
  | [] => Option.none
  | p :: rest =>
    Option.some (rest.foldl (fun best q => if f q.2 > f best.2 then q else best) p).1

/-- First element of the key array after a stable sort that puts smaller
`f`-values first (ascending comparator `f(a) - f(b)`), i.e. the
earliest-listed entry attaining the minimum of `f`. -/
def selectMinBy (f : Entry → Int) : List (String × Entry) → Option String
  | [] => Option.none
  | p :: rest =>
    Option.some (rest.foldl (fun best q => if f q.2 < f best.2 then q else best) p).1

/-- Victim selection of the `switch` in src lines 46-60, for the three
evicting policies:
* `oldest` (line 48): `Object.keys(data).sort((a,b) => data[b].added - data[a].added)[0]`
  — element `[0]` of the sort descending by `added`, i.e. the first key with
  the LARGEST `added`;
* `inactive` (line 51): same with `lastAccess`;
* `expiry` (lines 54-56): ascending sort by `_getTTLDate`, which is
  `data[key].ttl * ttlScale` (src lines 180-182; note: the entry's `added`
  is NOT part of the sort key), element `[0]` = first key with the smallest
  `ttl * ttlScale`.  Caveat: when some entry has `ttl == -1` the JS
  comparator (`Infinity` when its first argument has ttl -1, plain
  difference otherwise) is inconsistent and `Array.sort` is
  implementation-defined; this model is only used, in every theorem below,
  on stores where no entry has `ttl = -1`, where the comparator is
  consistent and the model exact.
`none` never reaches victim selection (handled before). -/
def rotateDelKey (s : Store) : Option String :=
  match s.options.rotateType with
  | RotateType.oldest => selectMaxBy (fun e => e.added) s.data
  | RotateType.inactive => selectMaxBy (fun e => e.lastAccess) s.data
  | RotateType.expiry => selectMinBy (fun e => e.ttl * s.options.ttlScale) s.data
  | RotateType.none => Option.none

/-- Step 1 of `set` (src lines 40-42): if the key is already present, `del`
it first. -/
def setStep1 (s0 : Store) (key : String) : Store :=
  if (findEntry key s0.data).isSome then (s0.del key).1 else s0

/-- Step 2 of `set` (src lines 44-62): if `stats.keys + 1 > maxKeys`, select
a victim per the rotation policy and `del` it; under `'none'` (the `switch`
default, line 59) throw the capacity error instead; if the data object is
empty the sorted key array is empty, the victim is `undefined`, and
`this.del(undefined)` throws a `TypeError` inside `_makeKey` (line 61). -/
def setStep2 (s1 : Store) : Store × Option CacheError :=
  if s1.stats.keys + 1 > s1.options.maxKeys then
    if s1.options.rotateType = RotateType.none then
      (s1, Option.some CacheError.capacityExceeded)
    else
      match rotateDelKey s1 with
      | Option.none => (s1, Option.some CacheError.typeError)
      | Option.some delKey => ((s1.del delKey).1, Option.none)
  else (s1, Option.none)

/-- Step 3 of `set` (src lines 64-76): compute the size, bump the stats, and
write the new entry with `ttl` = the given ttl if non-null else `stdTTL`,
and `added = lastAccess = now`. -/
def insertEntry (s2 : Store) (key : String) (value : Val) (ttl : Option Int) (now : Int) :
    Store :=
  { s2 with
    stats := { s2.stats with
      keys := s2.stats.keys + 1
      keySize := s2.stats.keySize + (key.length : Int)
      valueSize := s2.stats.valueSize + getValueSize s2.options value }
    data := s2.data ++ [(key,
      { value := value
        size := getValueSize s2.options value
        ttl := ttl.getD s2.options.stdTTL
        added := now
        lastAccess := now })] }

/-- `set(key, value, ttl = null)` (src lines 37-77), as the composition of
the three steps above; when step 2 throws, the store keeps the state the
exception left behind (the self-delete of step 1 included). -/
def Store.set (s0 : Store) (key : String) (value : Val) (ttl : Option Int) (now : Int) :
    Store × Option CacheError :=
  match setStep2 (setStep1 s0 key) with
  | (s2, Option.some err) => (s2, Option.some err)
  | (s2, Option.none) => (insertEntry s2 key value ttl now, Option.none)

/-- The `data.forEach(({key, value, ttl}) => this.set(key, value, ttl))` part
of `mset` (src line 84): run the `set`s in order, stopping at the first
thrown error (a JS exception aborts the remaining iterations). -/
def runSets (s : Store) (batch : List (String × Val × Option Int)) (now : Int) :
    Store × Option CacheError :=
  match batch with
  | [] => (s, Option.none)
  | (key, value, ttl) :: rest =>
    match s.set key value ttl now with
    | (s1, Option.none) => runSets s1 rest now
    | (s1, Option.some err) => (s1, Option.some err)

/-- `mset(data)` (src lines 79-85): if `stats.keys + data.length > maxKeys`
and the rotation type is not in `ROTATE_TYPES`, throw the capacity error
before inserting anything; otherwise delegate to repeated `set`. -/
def Store.mset (s : Store) (batch : List (String × Val × Option Int)) (now : Int) :
    Store × Option CacheError :=
  if s.stats.keys + (batch.length : Int) > s.options.maxKeys ∧
      ROTATE_TYPES.contains s.options.rotateType = false then
    (s, Option.some CacheError.capacityExceeded)
  else runSets s batch now

/-- `get(key)` (src lines 87-96): on a hit, bump `hits`, set the entry's
`lastAccess` to now (in place, position unchanged) and return the value
(deep-copied when `useClones`; value equality is unaffected); on a miss bump
`misses` and return undefined (`Option.none`). -/
def Store.get (s : Store) (key : String) (now : Int) : Store × Option Val :=
  match findEntry key s.data with
  | Option.some e =>
    ({ s with
        stats := { s.stats with hits := s.stats.hits + 1 }
        data := s.data.map (fun p =>
          if p.1 = key then (p.1, { p.2 with lastAccess := now }) else p) },
     Option.some e.value)
  | Option.none =>
    ({ s with stats := { s.stats with misses := s.stats.misses + 1 } }, Option.none)

/-- `ttl(key, ttl)` (src lines 118-128): throw KeyNotFound when the key is
absent; when the new ttl is 0, `del` the key; otherwise overwrite the
entry's `ttl` field in place. -/
def Store.ttl (s : Store) (key : String) (t : Int) : Store × Option CacheError :=
  match findEntry key s.data with
  | Option.none => (s, Option.some (CacheError.keyNotFound key))
  | Option.some _ =>
    if t = 0 then ((s.del key).1, Option.none)
    else
      ({ s with data := s.data.map (fun p =>
          if p.1 = key then (p.1, { p.2 with ttl := t }) else p) },
       Option.none)

/-- `keys()` (src lines 138-140): `Object.keys(this.data)`. -/
def Store.keys (s : Store) : List String := s.data.map Prod.fst

/-- `close()` (src lines 166-168): `clearTimeout(this.checkTimeout)` — the
pending check timeout, if any, is cancelled. -/
def Store.close (s : Store) : Store := { s with checkScheduled := false }

/-- The expiry test of src line 174:
`data.ttl > -1 && data.added + this._getTTLDate(key) < now`, with
`_getTTLDate(key) = data[key].ttl * ttlScale` (src lines 180-182). -/
def expired (opts : Options) (e : Entry) (now : Int) : Bool :=
  decide (e.ttl > -1) && decide (e.added + e.ttl * opts.ttlScale < now)

/-- One iteration of the `_expire` loop body (src lines 172-177) for one key
of the initial key snapshot: look the key up in the current data and `del`
it when expired. -/
def expireStep (now : Int) (s : Store) (key : String) : Store :=
  match findEntry key s.data with
  | Option.none => s
  | Option.some e => if expired s.options e now then (s.del key).1 else s

/-- `_expire()` (src lines 170-178): iterate over a snapshot of
`Object.keys(this.data)` taken before the loop, deleting each entry that is
expired at time `now`. -/
def Store.expire (s : Store) (now : Int) : Store :=
  (s.data.map Prod.fst).foldl (expireStep now) s

/-- One firing of the check timeout armed at construction (src line 34).
`setTimeout` is one-shot: the pending timeout is consumed when it fires.
The handler `_expire` (src lines 170-178) contains no call to `setTimeout`,
so nothing re-arms the timeout during or after the sweep. -/
def fireCheck (s : Store) (now : Int) : Store :=
  Store.expire { s with checkScheduled := false } now

/-- One foreground mutation, for claims quantifying over operation
sequences. -/
inductive Op where
  | opSet (key : String) (value : Val) (ttl : Option Int) (now : Int)
  | opDel (key : String)

/-- Apply one operation, keeping the store state a throwing `set` leaves
behind. -/
def applyOp (s : Store) : Op → Store
  | Op.opSet key value ttl now => (s.set key value ttl now).1
  | Op.opDel key => (s.del key).1

/-- Run a sequence of operations from a given state. -/
def runOps (s : Store) (ops : List Op) : Store := ops.foldl applyOp s

/-- Sum of the stored keys' string lengths. -/
def keySizeSum (l : List (String × Entry)) : Int :=
  (l.map (fun p => ((p.1.length : Int)))).sum

/-- Sum of the stored entries' sizes. -/
def valueSizeSum (l : List (String × Entry)) : Int :=
  (l.map (fun p => p.2.size)).sum

/-- The accounting invariant of the spec: the stats aggregates equal the
aggregates over live entries. -/
def consistent (s : Store) : Prop :=
  s.stats.keys = (s.data.length : Int) ∧
  s.stats.keySize = keySizeSum s.data ∧
  s.stats.valueSize = valueSizeSum s.data

/-- Well-formedness carried through the induction: the accounting invariant
plus uniqueness of keys (which JS objects guarantee by construction). -/
def goodState (s : Store) : Prop :=
  consistent s ∧ (s.data.map Prod.fst).Nodup

/-! ### Concrete scenario states used by the evaluation theorems below -/

/-- Three inserts at distinct times into a `maxKeys = 2`, `oldest` store:
`set('a',1)` at t=0, `set('b',2)` at t=1, `set('c',3)` at t=2. -/
def oldestScenario : Store :=
  ((((Store.fresh { maxKeys := 2, rotateType := RotateType.oldest }).set
      "a" (Val.vnum 1) Option.none 0).1.set
      "b" (Val.vnum 2) Option.none 1).1.set
      "c" (Val.vnum 3) Option.none 2).1

/-- The spec example for the `inactive` policy: `maxKeys = 2`,
`set('a',1)` at t=0, `set('b',2)` at t=1, `get('a')` at t=2,
`set('c',3)` at t=3. -/
def inactiveScenario : Store :=
  (((((Store.fresh { maxKeys := 2, rotateType := RotateType.inactive }).set
      "a" (Val.vnum 1) Option.none 0).1.set
      "b" (Val.vnum 2) Option.none 1).1.get "a" 2).1.set
      "c" (Val.vnum 3) Option.none 3).1

/-- `maxKeys = 2`, `expiry` policy, `ttlScale = 1000`:
`set('a',1,100)` at t=0 (effective expiry 100000),
`set('b',2,50)` at t=1000000 (effective expiry 1050000),
`set('c',3,100)` at t=1000001 forcing an eviction.  All TTLs are
non-negative, so the sort comparator is consistent here. -/
def expiryScenario : Store :=
  ((((Store.fresh { maxKeys := 2, rotateType := RotateType.expiry }).set
      "a" (Val.vnum 1) (Option.some 100) 0).1.set
      "b" (Val.vnum 2) (Option.some 50) 1000000).1.set
      "c" (Val.vnum 3) (Option.some 100) 1000001).1

/-- A default-options store holding an entry with `ttl = 5` (expired at
t=10000) and one with `ttl = -1`. -/
def expireWitnessStore : Store :=
  { data := [("a", { value := Val.vnum 1, size := 8, ttl := 5, added := 0, lastAccess := 0 }),
             ("b", { value := Val.vnum 2, size := 8, ttl := -1, added := 0, lastAccess := 0 })]
    options := {}
    stats := { keys := 2, hits := 0, misses := 0, keySize := 2, valueSize := 16 }
    checkScheduled := true }

/-- Fresh `maxKeys = 2`, `rotateType = 'none'` store. -/
def msetNoneStore : Store :=
  Store.fresh { maxKeys := 2, rotateType := RotateType.none }

/-- A three-entry batch for `mset`. -/
def msetNoneBatch : List (String × Val × Option Int) :=
  [("a", Val.vnum 1, Option.none), ("b", Val.vnum 2, Option.none),
   ("c", Val.vnum 3, Option.none)]

/-- A full (`stats.keys = maxKeys = 1`) `'none'` store holding only "a". -/
def overwriteStore : Store :=
  ((Store.fresh { maxKeys := 1, rotateType := RotateType.none }).set
    "a" (Val.vnum 1) Option.none 0).1

/-! ### Association-list lemmas -/

theorem findEntry_some_mem {key : String} {l : List (String × Entry)} {e : Entry}
    (h : findEntry key l = Option.some e) : (key, e) ∈ l := by
  induction l with
  | nil => simp [findEntry] at h
  | cons p rest ih =>
    obtain ⟨a, b⟩ := p
    by_cases hp : a = key
    · subst hp
      simp only [findEntry, if_pos] at h
      cases h
      exact List.mem_cons_self _ _
    · have hp2 : (a, b).1 ≠ key := hp
      simp only [findEntry, hp2, if_neg, if_false] at h
      exact List.mem_cons_of_mem _ (ih h)

theorem findEntry_none_of_forall {key : String} {l : List (String × Entry)}
    (h : ∀ p ∈ l, p.1 ≠ key) : findEntry key l = Option.none := by
  induction l with
  | nil => rfl
  | cons p rest ih =>
    have hp : p.1 ≠ key := h p (List.mem_cons_self p rest)
    simp only [findEntry, hp, if_neg, if_false]
    exact ih (fun q hq => h q (List.mem_cons_of_mem _ hq))

theorem forall_of_findEntry_none {key : String} {l : List (String × Entry)}
    (h : findEntry key l = Option.none) : ∀ p ∈ l, p.1 ≠ key := by
  induction l with
  | nil => intro p hp; simp at hp
  | cons p rest ih =>
    by_cases hp : p.1 = key
    · simp [findEntry, hp] at h
    · intro q hq
      rcases List.mem_cons.mp hq with h1 | h1
      · rw [h1]; exact hp
      · simp only [findEntry, hp, if_neg, if_false] at h
        exact ih h q h1

theorem findEntry_filter_self (key : String) (l : List (String × Entry)) :
    findEntry key (l.filter (fun p => p.1 ≠ key)) = Option.none := by
  apply findEntry_none_of_forall
  intro p hp
  have := (List.mem_filter.mp hp).2
  simpa using this

theorem findEntry_none_filter {key : String} {l : List (String × Entry)}
    (q : String × Entry → Bool) (h : findEntry key l = Option.none) :
    findEntry key (l.filter q) = Option.none := by
  apply findEntry_none_of_forall
  intro p hp
  exact forall_of_findEntry_none h p (List.mem_filter.mp hp).1

theorem findEntry_append_self {key : String} {l : List (String × Entry)} (e : Entry)
    (h : findEntry key l = Option.none) :
    findEntry key (l ++ [(key, e)]) = Option.some e := by
  induction l with
  | nil => simp [findEntry]
  | cons p rest ih =>
    have hp : p.1 ≠ key := forall_of_findEntry_none h p (List.mem_cons_self p rest)
    simp only [findEntry, hp, if_neg, if_false, List.cons_append] at *
    exact ih h

theorem findEntry_none_not_mem_keys {key : String} {l : List (String × Entry)}
    (h : findEntry key l = Option.none) : key ∉ l.map Prod.fst := by
  intro hmem
  rcases List.mem_map.mp hmem with ⟨p, hp, hk⟩
  exact forall_of_findEntry_none h p hp hk

/-- With unique keys, any binding of `key` in the list carries the entry
that `findEntry` returns. -/
theorem entry_unique_of_nodup {key : String} {l : List (String × Entry)} {e : Entry}
    (hnd : (l.map Prod.fst).Nodup) (hf : findEntry key l = Option.some e) :
    ∀ p ∈ l, p.1 = key → p.2 = e := by
  induction l with
  | nil => intro p hp; simp at hp
  | cons q rest ih =>
    rw [List.map_cons] at hnd
    have hnd2 := List.nodup_cons.mp hnd
    intro p hp hpk
    by_cases hq : q.1 = key
    · simp only [findEntry, hq, if_pos, Option.some.injEq] at hf
      rcases List.mem_cons.mp hp with h1 | h1
      · rw [h1, hf]
      · exfalso
        exact hnd2.1 (by rw [hq, ← hpk]; exact List.mem_map.mpr ⟨p, h1, rfl⟩)
    · simp only [findEntry, hq, if_neg, if_false] at hf
      rcases List.mem_cons.mp hp with h1 | h1
      · exfalso; rw [h1] at hpk; exact hq hpk
      · exact ih hnd2.2 hf p h1 hpk

@[simp] theorem keySizeSum_nil : keySizeSum [] = 0 := rfl

@[simp] theorem keySizeSum_cons (p : String × Entry) (l : List (String × Entry)) :
    keySizeSum (p :: l) = (p.1.length : Int) + keySizeSum l := by
  simp [keySizeSum]

@[simp] theorem keySizeSum_append (l1 l2 : List (String × Entry)) :
    keySizeSum (l1 ++ l2) = keySizeSum l1 + keySizeSum l2 := by
  simp [keySizeSum]

@[simp] theorem valueSizeSum_nil : valueSizeSum [] = 0 := rfl

@[simp] theorem valueSizeSum_cons (p : String × Entry) (l : List (String × Entry)) :
    valueSizeSum (p :: l) = p.2.size + valueSizeSum l := by
  simp [valueSizeSum]

@[simp] theorem valueSizeSum_append (l1 l2 : List (String × Entry)) :
    valueSizeSum (l1 ++ l2) = valueSizeSum l1 + valueSizeSum l2 := by
  simp [valueSizeSum]

/-- Removing the unique binding of a present key removes exactly one entry
from each aggregate. -/
theorem counts_of_erase {key : String} {l : List (String × Entry)} {e : Entry}
    (hnd : (l.map Prod.fst).Nodup) (hf : findEntry key l = Option.some e) :
    ((l.filter (fun p => p.1 ≠ key)).length : Int) = (l.length : Int) - 1 ∧
    keySizeSum (l.filter (fun p => p.1 ≠ key)) = keySizeSum l - (key.length : Int) ∧
    valueSizeSum (l.filter (fun p => p.1 ≠ key)) = valueSizeSum l - e.size := by
  induction l with
  | nil => simp [findEntry] at hf
  | cons p rest ih =>
    rw [List.map_cons] at hnd
    have hnd2 := List.nodup_cons.mp hnd
    by_cases hp : p.1 = key
    · simp only [findEntry, hp, if_pos, Option.some.injEq] at hf
      have hpred : (fun q : String × Entry => decide (q.1 ≠ key)) p = false := by
        simp [hp]
      have hrest : rest.filter (fun q => q.1 ≠ key) = rest := by
        apply List.filter_eq_self.mpr
        intro q hq
        simp only [decide_eq_true_eq]
        intro hqk
        exact hnd2.1 (by rw [hp, ← hqk]; exact List.mem_map.mpr ⟨q, hq, rfl⟩)
      rw [List.filter_cons_of_neg (by simp [hp]), hrest]
      refine ⟨?_, ?_, ?_⟩
      · simp only [List.length_cons]; push_cast; ring
      · rw [keySizeSum_cons, hp]; ring
      · rw [valueSizeSum_cons, hf]; ring
    · simp only [findEntry, hp, if_neg, if_false] at hf
      rcases ih hnd2.2 hf with ⟨h1, h2, h3⟩
      rw [List.filter_cons_of_pos (by simp [hp])]
      refine ⟨?_, ?_, ?_⟩
      · simp only [List.length_cons]
        push_cast at h1 ⊢
        omega
      · rw [keySizeSum_cons, keySizeSum_cons, h2]; ring
      · rw [valueSizeSum_cons, valueSizeSum_cons, h3]; ring

/-! ### Structural lemmas about `del`, the `set` steps, `get` and `ttl` -/

theorem del_of_findEntry_none {s : Store} {key : String}
    (h : findEntry key s.data = Option.none) : s.del key = (s, 0) := by
  simp [Store.del, h]

theorem del_of_findEntry_some {s : Store} {key : String} {e : Entry}
    (h : findEntry key s.data = Option.some e) :
    (s.del key).1.data = s.data.filter (fun p => p.1 ≠ key) ∧
    (s.del key).1.stats.keys = s.stats.keys - 1 ∧
    (s.del key).1.stats.keySize = s.stats.keySize - (key.length : Int) ∧
    (s.del key).1.stats.valueSize = s.stats.valueSize - e.size := by
  simp [Store.del, h]

theorem del_options (s : Store) (key : String) : (s.del key).1.options = s.options := by
  cases h : findEntry key s.data <;> simp [Store.del, h]

theorem del_checkScheduled (s : Store) (key : String) :
    (s.del key).1.checkScheduled = s.checkScheduled := by
  cases h : findEntry key s.data <;> simp [Store.del, h]

theorem del_preserves_absent {s : Store} {key : String} (k : String)
    (h : findEntry key s.data = Option.none) :
    findEntry key ((s.del k).1).data = Option.none := by
  cases hk : findEntry k s.data with
  | none => rw [del_of_findEntry_none hk]; exact h
  | some e => rw [(del_of_findEntry_some hk).1]; exact findEntry_none_filter _ h

theorem goodState_del {s : Store} (key : String) (h : goodState s) :
    goodState (s.del key).1 := by
  cases hk : findEntry key s.data with
  | none => rw [del_of_findEntry_none hk]; exact h
  | some e =>
    obtain ⟨⟨hkeys, hksize, hvsize⟩, hnd⟩ := h
    obtain ⟨hdata, hk1, hk2, hk3⟩ := del_of_findEntry_some (s := s) hk
    constructor
    · refine ⟨?_, ?_, ?_⟩
      · rw [hk1, hdata, (counts_of_erase hnd hk).1, hkeys]
      · rw [hk2, hdata, (counts_of_erase hnd hk).2.1, hksize]
      · rw [hk3, hdata, (counts_of_erase hnd hk).2.2, hvsize]
    · rw [hdata]
      exact ((List.filter_sublist _).map Prod.fst).nodup hnd

theorem setStep1_options (s0 : Store) (key : String) :
    (setStep1 s0 key).options = s0.options := by
  unfold setStep1
  split
  · exact del_options s0 key
  · rfl

theorem setStep1_absent (s0 : Store) (key : String) :
    findEntry key (setStep1 s0 key).data = Option.none := by
  unfold setStep1
  cases h : findEntry key s0.data with
  | none => simp [h]
  | some e =>
    rw [if_pos (show (Option.some e).isSome = true from rfl), (del_of_findEntry_some h).1]
    exact findEntry_filter_self key s0.data

theorem goodState_setStep1 {s0 : Store} (key : String) (h : goodState s0) :
    goodState (setStep1 s0 key) := by
  unfold setStep1
  split
  · exact goodState_del key h
  · exact h

theorem setStep2_shape (s1 : Store) :
    (setStep2 s1).1 = s1 ∨ ∃ k, (setStep2 s1).1 = (s1.del k).1 := by
  unfold setStep2
  split
  · split
    · left; rfl
    · cases h : rotateDelKey s1 with
      | none => left; rfl
      | some k => right; exact ⟨k, rfl⟩
  · left; rfl

theorem setStep2_options (s1 : Store) : (setStep2 s1).1.options = s1.options := by
  rcases setStep2_shape s1 with h | ⟨k, h⟩
  · rw [h]
  · rw [h]; exact del_options s1 k

theorem setStep2_preserves_absent {s1 : Store} {key : String}
    (h : findEntry key s1.data = Option.none) :
    findEntry key ((setStep2 s1).1).data = Option.none := by
  rcases setStep2_shape s1 with h2 | ⟨k, h2⟩
  · rw [h2]; exact h
  · rw [h2]; exact del_preserves_absent k h

theorem goodState_setStep2 {s1 : Store} (h : goodState s1) :
    goodState (setStep2 s1).1 := by
  rcases setStep2_shape s1 with h2 | ⟨k, h2⟩
  · rw [h2]; exact h
  · rw [h2]; exact goodState_del k h

theorem insertEntry_options (s2 : Store) (key : String) (value : Val) (ttl : Option Int)
    (now : Int) : (insertEntry s2 key value ttl now).options = s2.options := rfl

theorem goodState_insertEntry {s2 : Store} {key : String} (value : Val) (ttl : Option Int)
    (now : Int) (h : goodState s2) (habs : findEntry key s2.data = Option.none) :
    goodState (insertEntry s2 key value ttl now) := by
  obtain ⟨⟨hkeys, hksize, hvsize⟩, hnd⟩ := h
  constructor
  · refine ⟨?_, ?_, ?_⟩
    · simp [insertEntry, hkeys]
    · simp [insertEntry, hksize]
    · simp [insertEntry, hvsize]
  · simp only [insertEntry, List.map_append, List.map_cons, List.map_nil]
    rw [List.nodup_append]
    refine ⟨hnd, List.nodup_singleton key, ?_⟩
    intro a ha hb
    simp only [List.mem_singleton] at hb
    rw [hb] at ha
    exact findEntry_none_not_mem_keys habs ha

theorem set_cases (s0 : Store) (key : String) (value : Val) (ttl : Option Int) (now : Int) :
    (∃ s2 err, setStep2 (setStep1 s0 key) = (s2, Option.some err) ∧
      s0.set key value ttl now = (s2, Option.some err)) ∨
    (∃ s2, setStep2 (setStep1 s0 key) = (s2, Option.none) ∧
      s0.set key value ttl now = (insertEntry s2 key value ttl now, Option.none)) := by
  rcases h : setStep2 (setStep1 s0 key) with ⟨s2, err⟩
  cases err with
  | none => right; exact ⟨s2, rfl, by simp [Store.set, h]⟩
  | some e => left; exact ⟨s2, e, rfl, by simp [Store.set, h]⟩

theorem set_options (s0 : Store) (key : String) (value : Val) (ttl : Option Int) (now : Int) :
    (s0.set key value ttl now).1.options = s0.options := by
  have hs1 := setStep1_options s0 key
  have hs2 := setStep2_options (setStep1 s0 key)
  rcases set_cases s0 key value ttl now with ⟨s2, err, h1, h2⟩ | ⟨s2, h1, h2⟩
  · rw [h1] at hs2
    rw [h2]
    exact hs2.trans hs1
  · rw [h1] at hs2
    rw [h2]
    exact (insertEntry_options _ _ _ _ _).trans (hs2.trans hs1)

theorem goodState_set {s0 : Store} (key : String) (value : Val) (ttl : Option Int)
    (now : Int) (h : goodState s0) : goodState (s0.set key value ttl now).1 := by
  have hg2 := goodState_setStep2 (goodState_setStep1 key h)
  have habs := setStep2_preserves_absent (setStep1_absent s0 key)
  rcases set_cases s0 key value ttl now with ⟨s2, err, h1, h2⟩ | ⟨s2, h1, h2⟩
  · rw [h1] at hg2
    rw [h2]
    exact hg2
  · rw [h1] at hg2 habs
    rw [h2]
    exact goodState_insertEntry value ttl now hg2 habs

/-! ### Lemmas about the expiry sweep -/

theorem expireStep_of_absent {s : Store} {k : String}
    (h : findEntry k s.data = Option.none) (now : Int) : expireStep now s k = s := by
  simp [expireStep, h]

theorem expireStep_checkScheduled (now : Int) (s : Store) (k : String) :
    (expireStep now s k).checkScheduled = s.checkScheduled := by
  unfold expireStep
  cases h : findEntry k s.data with
  | none => rfl
  | some e =>
    by_cases hx : expired s.options e now = true
    · simp only [hx, if_pos]
      exact del_checkScheduled s k
    · simp only [Bool.not_eq_true] at hx
      simp [hx]

theorem expireStep_options (now : Int) (s : Store) (k : String) :
    (expireStep now s k).options = s.options := by
  unfold expireStep
  cases h : findEntry k s.data with
  | none => rfl
  | some e =>
    by_cases hx : expired s.options e now = true
    · simp only [hx, if_pos]
      exact del_options s k
    · simp only [Bool.not_eq_true] at hx
      simp [hx]

theorem foldl_expireStep_checkScheduled (now : Int) :
    ∀ (ks : List String) (s : Store),
      (ks.foldl (expireStep now) s).checkScheduled = s.checkScheduled := by
  intro ks
  induction ks with
  | nil => intro s; rfl
  | cons k ks ih =>
    intro s
    rw [List.foldl_cons, ih (expireStep now s k)]
    exact expireStep_checkScheduled now s k

/-- The `_expire` loop, run over any key snapshot `ks`, filters out of the
data exactly the bindings whose key is in `ks` and whose entry is expired
(given unique keys). -/
theorem foldl_expireStep_data (now : Int) :
    ∀ (ks : List String) (s : Store), (s.data.map Prod.fst).Nodup →
      (ks.foldl (expireStep now) s).data =
        s.data.filter (fun p => !(decide (p.1 ∈ ks) && expired s.options p.2 now)) := by
  intro ks
  induction ks with
  | nil =>
    intro s hnd
    simp
  | cons k ks ih =>
    intro s hnd
    rw [List.foldl_cons]
    cases hf : findEntry k s.data with
    | none =>
      rw [expireStep_of_absent hf now, ih s hnd]
      apply List.filter_congr
      intro p hp
      have hne : p.1 ≠ k := forall_of_findEntry_none hf p hp
      simp [List.mem_cons, hne]
    | some e =>
      by_cases hx : expired s.options e now = true
      · have hstep : expireStep now s k = (s.del k).1 := by
          simp [expireStep, hf, hx]
        have hdata := (del_of_findEntry_some hf).1
        have hnd2 : (((s.del k).1).data.map Prod.fst).Nodup := by
          rw [hdata]
          exact ((List.filter_sublist _).map Prod.fst).nodup hnd
        rw [hstep, ih _ hnd2, hdata, del_options, List.filter_filter]
        apply List.filter_congr
        intro p hp
        by_cases hpk : p.1 = k
        · have hpe : p.2 = e := entry_unique_of_nodup hnd hf p hp hpk
          simp [hpk, hpe, hx]
        · simp [List.mem_cons, hpk]
      · have hstep : expireStep now s k = s := by
          simp [expireStep, hf, hx]
        rw [hstep, ih s hnd]
        apply List.filter_congr
        intro p hp
        by_cases hpk : p.1 = k
        · have hpe : p.2 = e := entry_unique_of_nodup hnd hf p hp hpk
          simp only [Bool.not_eq_true] at hx
          simp [hpk, hpe, hx]
        · simp [List.mem_cons, hpk]

theorem expire_checkScheduled (s : Store) (now : Int) :
    (s.expire now).checkScheduled = s.checkScheduled :=
  foldl_expireStep_checkScheduled now (s.data.map Prod.fst) s

/-! ### Capacity lemmas for `set` and `mset` -/

theorem setStep2_no_evict {s1 : Store} (h : ¬ (s1.stats.keys + 1 > s1.options.maxKeys)) :
    setStep2 s1 = (s1, Option.none) := by
  unfold setStep2
  rw [if_neg h]

theorem set_eq_insert {s0 s1 : Store} {key : String} (value : Val) (ttl : Option Int)
    (now : Int) (h1 : setStep1 s0 key = s1) (h2 : setStep2 s1 = (s1, Option.none)) :
    s0.set key value ttl now = (insertEntry s1 key value ttl now, Option.none) := by
  simp [Store.set, h1, h2]

theorem insertEntry_keys (s2 : Store) (key : String) (value : Val) (ttl : Option Int)
    (now : Int) : (insertEntry s2 key value ttl now).stats.keys = s2.stats.keys + 1 := rfl

/-- A `set` that starts strictly under capacity never throws and grows
`stats.keys` by at most one (exactly one for a new key, zero for an
overwrite). -/
theorem set_under_capacity_success (s : Store) (key : String) (value : Val)
    (ttl : Option Int) (now : Int) (hcap : s.stats.keys + 1 ≤ s.options.maxKeys) :
    (s.set key value ttl now).2 = Option.none ∧
    (s.set key value ttl now).1.stats.keys ≤ s.stats.keys + 1 := by
  cases hp : findEntry key s.data with
  | none =>
    have h1 : setStep1 s key = s := by simp [setStep1, hp]
    have h2 : setStep2 s = (s, Option.none) := setStep2_no_evict (not_lt.mpr hcap)
    rw [set_eq_insert value ttl now h1 h2]
    refine ⟨rfl, ?_⟩
    rw [insertEntry_keys]
  | some e =>
    have h1 : setStep1 s key = (s.del key).1 := by
      simp [setStep1, hp]
    have hkeys := (del_of_findEntry_some hp).2.1
    have hopts := del_options s key
    have hcond : ¬ ((s.del key).1.stats.keys + 1 > (s.del key).1.options.maxKeys) := by
      rw [hkeys, hopts]
      omega
    have h2 := setStep2_no_evict hcond
    rw [set_eq_insert value ttl now h1 h2]
    refine ⟨rfl, ?_⟩
    rw [insertEntry_keys, hkeys]
    omega

/-- Running the `set`s of a batch that fits under `maxKeys` never throws and
grows `stats.keys` by at most the batch length. -/
theorem runSets_success (now : Int) :
    ∀ (batch : List (String × Val × Option Int)) (s : Store),
      s.stats.keys + (batch.length : Int) ≤ s.options.maxKeys →
      (runSets s batch now).2 = Option.none ∧
      (runSets s batch now).1.stats.keys ≤ s.stats.keys + (batch.length : Int) := by
  intro batch
  induction batch with
  | nil =>
    intro s h
    exact ⟨rfl, by simp [runSets]⟩
  | cons item rest ih =>
    intro s h
    obtain ⟨key, value, ttl⟩ := item
    have hlen : ((rest.length + 1 : Nat) : Int) = (rest.length : Int) + 1 := by push_cast; ring
    rw [List.length_cons, hlen] at h
    have hone : s.stats.keys + 1 ≤ s.options.maxKeys := by
      have : (0 : Int) ≤ (rest.length : Int) := Int.natCast_nonneg _
      omega
    obtain ⟨hok, hle⟩ := set_under_capacity_success s key value ttl now hone
    rcases hset : s.set key value ttl now with ⟨s1, err⟩
    rw [hset] at hok hle
    simp only at hok hle
    subst hok
    have hrec : s1.stats.keys + (rest.length : Int) ≤ s1.options.maxKeys := by
      have hopts : s1.options = s.options := by
        have := set_options s key value ttl now
        rw [hset] at this
        exact this
      rw [hopts]
      omega
    obtain ⟨hok2, hle2⟩ := ih s1 hrec
    have hrunmatch : runSets s ((key, value, ttl) :: rest) now = runSets s1 rest now := by
      rw [runSets, hset]
    refine ⟨?_, ?_⟩
    · rw [hrunmatch]
      exact hok2
    · rw [hrunmatch, List.length_cons, hlen]
      omega

/-! ### Claim theorems -/

/-- C1: the claim states that under `rotateType = 'oldest'` a `set` at
capacity evicts the entry with the smallest `added` (so that inserting
`maxKeys + 1` distinct keys leaves only the earliest-inserted key absent).
Evaluating the code on `maxKeys = 2` with inserts a(t=0), b(t=1), c(t=2):
the store ends with keys `["a", "c"]` — the most recently added entry "b"
is evicted and the earliest-inserted "a" survives, because the code sorts
descending by `added` and takes element `[0]`, the maximum. -/
theorem oldest_eviction_at_capacity_eval :
    oldestScenario.keys = ["a", "c"] ∧ findEntry "b" oldestScenario.data = Option.none := by
  decide

/-- C2: the claim states that under `rotateType = 'inactive'` a `set` at
capacity evicts the entry with the smallest `lastAccess`, and that the
sequence set('a',1), set('b',2), get('a'), set('c',3) with `maxKeys = 2`
leaves keys {'a','c'}.  Evaluating the code: the store ends with keys
`["b", "c"]` — the most recently accessed entry "a" is evicted, because
the code sorts descending by `lastAccess` and takes element `[0]`, the
maximum. -/
theorem inactive_eviction_at_capacity_eval :
    inactiveScenario.keys = ["b", "c"] ∧ findEntry "a" inactiveScenario.data = Option.none := by
  decide

/-- C3: the claim states that under `rotateType = 'expiry'` a `set` at
capacity evicts the entry with the smallest effective expiry time
`added + ttl*ttlScale`.  In the scenario, "a" has effective expiry
0 + 100*1000 = 100000 and "b" has 1000000 + 50*1000 = 1050000, so the
claim predicts "a" is evicted; evaluating the code, the store ends with
keys `["a", "c"]` — "b" is evicted, because the comparator sorts by
`ttl * ttlScale` alone (100000 vs 50000), ignoring `added`. -/
theorem expiry_eviction_at_capacity_eval :
    expiryScenario.keys = ["a", "c"] ∧ findEntry "b" expiryScenario.data = Option.none := by
  decide

/-- C4: after every sequence of `set`/`del` operations from a fresh store
(including delete-before-overwrite and capacity eviction inside `set`, and
including `set` calls that throw), the stats aggregates equal the
aggregates over live entries: `keys = |entries|`, `keySize = Σ len(key)`,
`valueSize = Σ entry.size`. -/
theorem stats_consistent_after_ops (opts : Options) (ops : List Op) :
    consistent (runOps (Store.fresh opts) ops) := by
  have haux : ∀ (l : List Op) (s : Store), goodState s → goodState (runOps s l) := by
    intro l
    induction l with
    | nil => intro s h; exact h
    | cons op rest ih =>
      intro s h
      show goodState (runOps (applyOp s op) rest)
      apply ih
      cases op with
      | opSet key value ttl now => exact goodState_set key value ttl now h
      | opDel key => exact goodState_del key h
  exact (haux ops (Store.fresh opts) ⟨⟨rfl, rfl, rfl⟩, List.nodup_nil⟩).1

/-- C5 counterexample: the claim states that `set(k, v, 0)` deletes
immediately rather than storing, leaving `k` absent.  Evaluating the code
on a fresh default store: `set('a', 1, 0)` succeeds and leaves "a" PRESENT,
stored with `ttl = 0` (the code only treats `ttl === 0` specially in the
`ttl()` method, not in `set`). -/
theorem set_ttl_zero_counterexample :
    ((Store.fresh ({} : Options)).set "a" (Val.vnum 1) (Option.some 0) 5).2 = Option.none ∧
    findEntry "a" (((Store.fresh ({} : Options)).set "a" (Val.vnum 1) (Option.some 0) 5).1).data
      = Option.some { value := Val.vnum 1, size := 8, ttl := 0, added := 5, lastAccess := 5 } := by
  decide

/-- C5 (amended): whenever `set(k, v, 0)` does not throw, it STORES an entry
under `k` with `ttl` field 0 (rather than deleting `k`): immediately after
the call, `k` is present and bound to the freshly written entry. -/
theorem set_ttl_zero_stores_entry (s : Store) (key : String) (value : Val) (now : Int)
    (h : (s.set key value (Option.some 0) now).2 = Option.none) :
    findEntry key ((s.set key value (Option.some 0) now).1).data =
      Option.some { value := value, size := getValueSize s.options value, ttl := 0,
                    added := now, lastAccess := now } := by
  rcases set_cases s key value (Option.some 0) now with ⟨s2, err, h1, h2⟩ | ⟨s2, h1, h2⟩
  · rw [h2] at h
    simp at h
  · rw [h2]
    have habs : findEntry key s2.data = Option.none := by
      have hx := setStep2_preserves_absent (setStep1_absent s key)
      rw [h1] at hx
      exact hx
    have hopts : s2.options = s.options := by
      have hx := setStep2_options (setStep1 s key)
      rw [h1] at hx
      exact hx.trans (setStep1_options s key)
    have hdata : (insertEntry s2 key value (Option.some 0) now).data =
        s2.data ++ [(key, { value := value, size := getValueSize s.options value, ttl := 0,
                            added := now, lastAccess := now })] := by
      simp [insertEntry, hopts]
    rw [hdata]
    exact findEntry_append_self _ habs

/-- C5 witness: the amended theorem applied at a concrete input. -/
theorem set_ttl_zero_stores_entry_witness :
    ((Store.fresh ({} : Options)).set "b" (Val.vnum 2) (Option.some 0) 7).2 = Option.none ∧
    findEntry "b" (((Store.fresh ({} : Options)).set "b" (Val.vnum 2) (Option.some 0) 7).1).data
      = Option.some { value := Val.vnum 2,
                      size := getValueSize (Store.fresh ({} : Options)).options (Val.vnum 2),
                      ttl := 0, added := 7, lastAccess := 7 } :=
  ⟨by decide, set_ttl_zero_stores_entry (Store.fresh ({} : Options)) "b" (Val.vnum 2) 7 (by decide)⟩

/-- C6: the claim states that after a sweep completes it reschedules itself
for the next firing whenever the store has not been closed.  In the code,
the constructor arms a single one-shot `setTimeout` (line 34) and `_expire`
(lines 170-178) contains no rescheduling call, so after the one firing no
check is pending any more — for every store state, closed or not: the
sweep never fires a second time. -/
theorem sweep_does_not_reschedule (s : Store) (now : Int) :
    (fireCheck s now).checkScheduled = false := by
  unfold fireCheck
  rw [expire_checkScheduled]

/-- C7: a single expiry-sweep pass removes exactly the entries with
`ttl > -1` and `added + ttl*ttlScale < now`, and every entry with
`ttl = -1` survives (for every store with unique keys — which JS object
semantics guarantee — and every `now`). -/
theorem expire_removes_exactly_expired (s : Store) (now : Int)
    (hnd : (s.data.map Prod.fst).Nodup) :
    (s.expire now).data = s.data.filter (fun p => !(expired s.options p.2 now)) ∧
    ∀ p ∈ s.data, p.2.ttl = -1 → p ∈ (s.expire now).data := by
  have hmain : (s.expire now).data =
      s.data.filter (fun p => !(expired s.options p.2 now)) := by
    rw [Store.expire, foldl_expireStep_data now (s.data.map Prod.fst) s hnd]
    apply List.filter_congr
    intro p hp
    have hin : p.1 ∈ s.data.map Prod.fst := List.mem_map.mpr ⟨p, hp, rfl⟩
    simp [hin]
  refine ⟨hmain, ?_⟩
  intro p hp httl
  rw [hmain]
  apply List.mem_filter.mpr
  refine ⟨hp, ?_⟩
  simp [expired, httl]

/-- C7 witness: the sweep theorem applied to a concrete two-entry store at
`now = 10000`: the `ttl = 5` entry (expired since 5000) goes, the
`ttl = -1` entry stays. -/
theorem expire_removes_exactly_expired_witness :
    (expireWitnessStore.data.map Prod.fst).Nodup ∧
    ((expireWitnessStore.expire 10000).data =
        expireWitnessStore.data.filter
          (fun p => !(expired expireWitnessStore.options p.2 10000)) ∧
      ∀ p ∈ expireWitnessStore.data, p.2.ttl = -1 →
        p ∈ (expireWitnessStore.expire 10000).data) :=
  ⟨by decide, expire_removes_exactly_expired expireWitnessStore 10000 (by decide)⟩

/-- C8: when `rotateType = 'none'` and the batch would push the key count
over `maxKeys`, `mset` throws the capacity error before inserting anything:
the returned store is exactly the input store (entries and stats
unchanged). -/
theorem mset_none_over_capacity_rejects (s : Store)
    (batch : List (String × Val × Option Int)) (now : Int)
    (h1 : s.options.rotateType = RotateType.none)
    (h2 : s.stats.keys + (batch.length : Int) > s.options.maxKeys) :
    s.mset batch now = (s, Option.some CacheError.capacityExceeded) := by
  have hc : ROTATE_TYPES.contains s.options.rotateType = false := by
    rw [h1]
    rfl
  unfold Store.mset
  rw [if_pos ⟨h2, hc⟩]

/-- C8 witness: `mset` of 3 entries against `maxKeys = 2`, `'none'` fails
with the capacity error and leaves the empty store empty. -/
theorem mset_none_over_capacity_rejects_witness :
    msetNoneStore.options.rotateType = RotateType.none ∧
    msetNoneStore.stats.keys + (msetNoneBatch.length : Int) > msetNoneStore.options.maxKeys ∧
    msetNoneStore.mset msetNoneBatch 0 = (msetNoneStore, Option.some CacheError.capacityExceeded) :=
  ⟨by decide, by decide,
    mset_none_over_capacity_rejects msetNoneStore msetNoneBatch 0 (by decide) (by decide)⟩

/-- C9 counterexample: the claim states `ttl(k, 0)` and `del(k)` exhibit the
same success/failure outcome for EVERY store state.  On an empty fresh
store, `ttl('a', 0)` throws KeyNotFound while `del('a')` succeeds and
returns 0 (both leave the store unchanged). -/
theorem ttl_zero_vs_del_counterexample :
    ((Store.fresh ({} : Options)).ttl "a" 0).2 = Option.some (CacheError.keyNotFound "a") ∧
    (Store.fresh ({} : Options)).del "a" = (Store.fresh ({} : Options), 0) := by
  decide

/-- C9 (amended): for every store and key, `ttl(k, 0)` and `del(k)` produce
identical resulting stores (when `k` is present both delete it; when `k` is
absent both change nothing), but their outcomes differ on absent keys:
`ttl(k, 0)` succeeds exactly when `k` is present, while `del(k)` never
throws (it returns 0 on absent keys). -/
theorem ttl_zero_del_equiv_states (s : Store) (key : String) :
    (s.ttl key 0).1 = (s.del key).1 ∧
    ((s.ttl key 0).2 = Option.none ↔ (findEntry key s.data).isSome = true) := by
  cases h : findEntry key s.data with
  | none =>
    refine ⟨?_, ?_⟩
    · simp [Store.ttl, h, del_of_findEntry_none h]
    · simp [Store.ttl, h]
  | some e =>
    refine ⟨?_, ?_⟩
    · simp [Store.ttl, h]
    · simp [Store.ttl, h]

/-- C10: under `rotateType = 'none'`, `mset` throws the capacity error
exactly when `stats.keys + batch.length > maxKeys`, where `batch.length`
counts every batch element — including overwrites of keys already present
(so an all-overwrite batch can fail although performing it would not grow
the key count). -/
theorem mset_none_guard_iff (s : Store) (batch : List (String × Val × Option Int))
    (now : Int) (h : s.options.rotateType = RotateType.none) :
    (s.mset batch now).2.isSome = true ↔
      s.stats.keys + (batch.length : Int) > s.options.maxKeys := by
  have hc : ROTATE_TYPES.contains s.options.rotateType = false := by
    rw [h]
    rfl
  by_cases hg : s.stats.keys + (batch.length : Int) > s.options.maxKeys
  · have hm : s.mset batch now = (s, Option.some CacheError.capacityExceeded) := by
      unfold Store.mset
      rw [if_pos ⟨hg, hc⟩]
    rw [hm]
    simp [hg]
  · have hle : s.stats.keys + (batch.length : Int) ≤ s.options.maxKeys := not_lt.mp hg
    have hm : s.mset batch now = runSets s batch now := by
      unfold Store.mset
      rw [if_neg (fun hcontra => hg hcontra.1)]
    rw [hm, (runSets_success now batch s hle).1]
    simp [hg]

/-- C10 witness: a store holding "a" at `maxKeys = 1` under `'none'`: the
one-element batch that merely overwrites "a" still counts against capacity,
so `mset` fails although performing it would not grow the key count. -/
theorem mset_none_guard_iff_witness :
    overwriteStore.options.rotateType = RotateType.none ∧
    ((overwriteStore.mset [("a", Val.vnum 2, Option.none)] 1).2.isSome = true ↔
      overwriteStore.stats.keys +
        (([("a", Val.vnum 2, Option.none)] : List (String × Val × Option Int)).length : Int) >
        overwriteStore.options.maxKeys) :=
  ⟨by decide, mset_none_guard_iff overwriteStore [("a", Val.vnum 2, Option.none)] 1 (by decide)⟩
